import Mathlib

/-!
Verification of the post/reply data-consistency layer of the discussion-board
repository.  The data model (`User`, `MediaFile`, `Post`), the Content
Sanitizer (`sanitizeText`, `detectDangerousContent`), the Local backend
(`WebStorage`, from `src/services/storage/webStorage.ts`), the Bridged
backend's main-process handlers (`MainIpc`, from `electron/main.js`) and its
renderer-side sanitizer (`electronSanitizeText`, from
`src/services/storage/electronStorage.ts`), and the Post Store operations
(`UsePosts`, from `src/hooks/usePosts.ts`) are embedded as pure Lean
functions; stateful code is modelled by explicit passing of the stored or
in-memory post collection.
-/

/-- `User` from `src/types/index.ts`. -/
structure User where
  id : String
  name : String

/-- `MediaFile` from `src/types/index.ts` (`size`/`contentHash` optional). -/
structure MediaFile where
  id : String
  type : String
  url : String
  name : String
  size : Option Nat
  contentHash : Option String

/-- The fields of a `Post` (from `src/types/index.ts`), parametrised by the
type of the nested replies so that `Post` below can tie the knot.  The
optional JS fields `parentId`, `media`, `isDeleted`, `lastEdited` are
modelled with `Option`/`Bool` (`isDeleted` absent behaves as `false` in every
truthiness test of the source, so it is a `Bool` defaulting to `false`). -/
structure PostF (P : Type) where
  id : String
  text : String
  author : User
  timestamp : String
  likes : Nat
  likedBy : List String
  replies : List P
  parentId : Option String
  media : List MediaFile
  isDeleted : Bool
  lastEdited : Option String

/-- `Post` from `src/types/index.ts`: a recursive record whose `replies`
field holds further posts (nesting of any depth can occur in stored data). -/
inductive Post where
  | mk (f : PostF Post) : Post

/-- Unfold one constructor layer of a `Post`. -/
def Post.out : Post → PostF Post
  | .mk f => f

/-- Field accessor `post.id`. -/
def Post.id (p : Post) : String := p.out.id

/-- Field accessor `post.text`. -/
def Post.text (p : Post) : String := p.out.text

/-- Field accessor `post.author`. -/
def Post.author (p : Post) : User := p.out.author

/-- Field accessor `post.timestamp`. -/
def Post.timestamp (p : Post) : String := p.out.timestamp

/-- Field accessor `post.likes`. -/
def Post.likes (p : Post) : Nat := p.out.likes

/-- Field accessor `post.likedBy`. -/
def Post.likedBy (p : Post) : List String := p.out.likedBy

/-- Field accessor `post.replies`. -/
def Post.replies (p : Post) : List Post := p.out.replies

/-- Field accessor `post.parentId`. -/
def Post.parentId (p : Post) : Option String := p.out.parentId

/-- Field accessor `post.media`. -/
def Post.media (p : Post) : List MediaFile := p.out.media

/-- Field accessor `post.isDeleted`. -/
def Post.isDeleted (p : Post) : Bool := p.out.isDeleted

/-- Field accessor `post.lastEdited`. -/
def Post.lastEdited (p : Post) : Option String := p.out.lastEdited

@[simp] theorem Post.out_mk (f : PostF Post) : (Post.mk f).out = f := rfl

@[simp] theorem Post.id_mk (f : PostF Post) : (Post.mk f).id = f.id := rfl

@[simp] theorem Post.text_mk (f : PostF Post) : (Post.mk f).text = f.text := rfl

@[simp] theorem Post.author_mk (f : PostF Post) : (Post.mk f).author = f.author := rfl

@[simp] theorem Post.timestamp_mk (f : PostF Post) : (Post.mk f).timestamp = f.timestamp := rfl

@[simp] theorem Post.likes_mk (f : PostF Post) : (Post.mk f).likes = f.likes := rfl

@[simp] theorem Post.likedBy_mk (f : PostF Post) : (Post.mk f).likedBy = f.likedBy := rfl

@[simp] theorem Post.replies_mk (f : PostF Post) : (Post.mk f).replies = f.replies := rfl

@[simp] theorem Post.parentId_mk (f : PostF Post) : (Post.mk f).parentId = f.parentId := rfl

@[simp] theorem Post.media_mk (f : PostF Post) : (Post.mk f).media = f.media := rfl

@[simp] theorem Post.isDeleted_mk (f : PostF Post) : (Post.mk f).isDeleted = f.isDeleted := rfl

@[simp] theorem Post.lastEdited_mk (f : PostF Post) : (Post.mk f).lastEdited = f.lastEdited := rfl

@[simp] theorem Post.mk_out (p : Post) : Post.mk p.out = p := by cases p; rfl

/-- Character-level model of the JS `text.replace(/c/g, r)` for a
single-character pattern `c`: every occurrence of `c` is replaced by the
string `r`, in one pass over the text. -/
def replaceAll (c : Char) (r : String) (s : String) : String :=
  String.mk (s.data.flatMap (fun x => if x = c then r.data else [x]))

/-- `sanitizeText` from `src/utils/security.ts`: guard for empty text, then
seven chained global replacements in source order
(`&`, `<`, `>`, `"`, `'`, `/`, backtick — ampersand first). -/
def sanitizeText (text : String) : String :=
  if text = "" then ""
  else
    let s1 := replaceAll '&' "&amp;" text
    let s2 := replaceAll '<' "&lt;" s1
    let s3 := replaceAll '>' "&gt;" s2
    let s4 := replaceAll '"' "&quot;" s3
    let s5 := replaceAll (Char.ofNat 39) "&#x27;" s4
    let s6 := replaceAll '/' "&#x2F;" s5
    replaceAll (Char.ofNat 96) "&#x60;" s6

/-- The inner `sanitizeText` of `sanitizePost` in
`src/services/storage/electronStorage.ts`: six chained replacements in the
source order `<`, `>`, `&`, `"`, `'`, `/` (no empty-text guard, no backtick
replacement, and the ampersand replacement third). -/
def electronSanitizeText (text : String) : String :=
  let s1 := replaceAll '<' "&lt;" text
  let s2 := replaceAll '>' "&gt;" s1
  let s3 := replaceAll '&' "&amp;" s2
  let s4 := replaceAll '"' "&quot;" s3
  let s5 := replaceAll (Char.ofNat 39) "&#x27;" s4
  replaceAll '/' "&#x2F;" s5

/-- Single-pass character escape: what a correct ampersand-first escape of
the seven HTML-significant characters does to one character.  Used to state
that `sanitizeText` never double-escapes. -/
def escChar (c : Char) : List Char :=
  if c = '&' then "&amp;".data
  else if c = '<' then "&lt;".data
  else if c = '>' then "&gt;".data
  else if c = '"' then "&quot;".data
  else if c = Char.ofNat 39 then "&#x27;".data
  else if c = '/' then "&#x2F;".data
  else if c = Char.ofNat 96 then "&#x60;".data
  else [c]

/-- `\w` of the JS regexes: ASCII letters, digits and underscore. -/
def isWordChar (c : Char) : Bool := c.isAlphanum || c = '_'

/-- Tail matcher for the regex `on\w+=`: accepts `\w*=` at the head of the
list. -/
def wordStarEq : List Char → Bool
  | [] => false
  | c :: rest => c = '=' || (isWordChar c && wordStarEq rest)

/-- Matcher for `\w+=` at the head of the list. -/
def onPlus : List Char → Bool
  | [] => false
  | c :: rest => isWordChar c && wordStarEq rest

/-- Matcher for `n\w+=` at the head of the list. -/
def onAfterO : List Char → Bool
  | [] => false
  | c :: rest => c = 'n' && onPlus rest

/-- Whether the regex `on\w+=` matches anywhere in the list. -/
def hasOnAttr : List Char → Bool
  | [] => false
  | c :: rest => (c = 'o' && onAfterO rest) || hasOnAttr rest

/-- Whether `pat` occurs as a contiguous sublist of `s` (the JS
`/pat/.test(s)` for a literal pattern). -/
def containsSub (pat : List Char) : List Char → Bool
  | [] => pat.isEmpty
  | c :: rest => pat.isPrefixOf (c :: rest) || containsSub pat rest

/-- `detectDangerousContent` from `src/utils/security.ts`: empty text is
safe; otherwise the eight case-insensitive signature patterns are tested
(modelled by lower-casing the text once and matching lowercase patterns,
which is equivalent for these ASCII patterns). -/
def detectDangerousContent (text : String) : Bool :=
  if text = "" then false
  else
    let s := text.data.map Char.toLower
    containsSub ("<script".data) s ||
    containsSub ("<iframe".data) s ||
    containsSub ("javascript:".data) s ||
    hasOnAttr s ||
    containsSub ("eval(".data) s ||
    containsSub ("document.cookie".data) s ||
    containsSub ("localstorage".data) s ||
    containsSub ("sessionstorage".data) s

/-- `webStorage.getPosts` (`src/services/storage/webStorage.ts`): parses and
returns the stored array as-is — no filtering of any kind (in particular no
`isDeleted` filtering). -/
def WebStorage.getPosts (stored : List Post) : List Post := stored

/-- The reply-level arm of the `webStorage.deletePost` map: a matching reply
is marked `isDeleted`, any other reply is returned unchanged. -/
def WebStorage.deleteMarkReply (postId : String) (reply : Post) : Post :=
  if reply.id == postId then Post.mk { reply.out with isDeleted := true } else reply

/-- The post-level arm of the `webStorage.deletePost` map: a matching
top-level post is marked `isDeleted`; otherwise, when the post has replies,
they are re-mapped with `deleteMarkReply`. -/
def WebStorage.deleteMarkPost (postId : String) (post : Post) : Post :=
  if post.id == postId then
    Post.mk { post.out with isDeleted := true }
  else if post.replies.length > 0 then
    Post.mk { post.out with replies := post.replies.map (WebStorage.deleteMarkReply postId) }
  else post

/-- The `updatedPosts` computed by `webStorage.deletePost`: the target
top-level post, or the target among any post's direct replies, is marked
`isDeleted`; nothing is removed. -/
def WebStorage.deleteUpdatedPosts (postId : String) (stored : List Post) : List Post :=
  stored.map (WebStorage.deleteMarkPost postId)

/-- `webStorage.deletePost` (`src/services/storage/webStorage.ts`): soft-mark
the target, persist the full marked collection (`savePosts updatedPosts`),
and return the top-level-filtered collection.  The first component is the
newly stored collection, the second the value returned to the caller. -/
def WebStorage.deletePost (postId : String) (stored : List Post) : List Post × List Post :=
  let updatedPosts := WebStorage.deleteUpdatedPosts postId stored
  let filteredPosts := updatedPosts.filter (fun post => !post.isDeleted)
  (updatedPosts, filteredPosts)

/-- The reply-level arm of the `webStorage.likePost` map. -/
def WebStorage.likeMapReply (postId userId : String) (reply : Post) : Post :=
  if reply.id == postId && !(reply.likedBy.contains userId) then
    Post.mk { reply.out with likes := reply.likes + 1, likedBy := reply.likedBy ++ [userId] }
  else reply

/-- The post-level arm of the `webStorage.likePost` map. -/
def WebStorage.likeMapPost (postId userId : String) (post : Post) : Post :=
  if post.id == postId then
    if !(post.likedBy.contains userId) then
      Post.mk { post.out with likes := post.likes + 1, likedBy := post.likedBy ++ [userId] }
    else post
  else if post.replies.length > 0 then
    Post.mk { post.out with replies := post.replies.map (WebStorage.likeMapReply postId userId) }
  else post

/-- `webStorage.likePost` (`src/services/storage/webStorage.ts`): append the
user to `likedBy` and bump `likes` on the matching top-level post or direct
reply, unless the user is already present. -/
def WebStorage.likePost (postId userId : String) (stored : List Post) : List Post :=
  stored.map (WebStorage.likeMapPost postId userId)

/-- The per-post arm of the `ipcMain.handle('deletePost')` handler in
`electron/main.js`: a matching top-level post is mapped to `null` (hard
removal, no tombstone), and a matching reply is filtered out of its parent's
`replies` array. -/
def MainIpc.deleteMapPost (postId : String) (post : Post) : Option Post :=
  if !(post.id == postId) then
    some (if post.replies.length > 0 then
      Post.mk { post.out with replies := post.replies.filter (fun reply => !(reply.id == postId)) }
    else post)
  else none

/-- The `ipcMain.handle('deletePost')` handler, assembled: map then
`filter(Boolean)`. -/
def MainIpc.deletePost (postId : String) (savedPosts : List Post) : List Post :=
  (savedPosts.map (MainIpc.deleteMapPost postId)).filterMap id

/-- The reply-level arm of the `ipcMain.handle('likePost')` map in
`electron/main.js` (after the falsy-argument guard `!postId || !userId` —
the empty string is falsy — the handler runs the same map as
`webStorage.likePost`). -/
def MainIpc.likeMapReply (postId userId : String) (reply : Post) : Post :=
  if reply.id == postId && !(reply.likedBy.contains userId) then
    Post.mk { reply.out with likes := reply.likes + 1, likedBy := reply.likedBy ++ [userId] }
  else reply

/-- The post-level arm of the `ipcMain.handle('likePost')` map. -/
def MainIpc.likeMapPost (postId userId : String) (post : Post) : Post :=
  if post.id == postId then
    if !(post.likedBy.contains userId) then
      Post.mk { post.out with likes := post.likes + 1, likedBy := post.likedBy ++ [userId] }
    else post
  else if post.replies.length > 0 then
    Post.mk { post.out with replies := post.replies.map (MainIpc.likeMapReply postId userId) }
  else post

/-- The `ipcMain.handle('likePost')` handler, assembled: falsy-argument
guard then the map. -/
def MainIpc.likePost (postId userId : String) (savedPosts : List Post) : List Post :=
  if postId = "" || userId = "" then savedPosts
  else savedPosts.map (MainIpc.likeMapPost postId userId)

/-- `getPostById` from `src/hooks/usePosts.ts`: search the top-level posts
first, then each post's direct replies; never deeper. -/
def UsePosts.getPostById (postId : String) (posts : List Post) : Option Post :=
  match posts.find? (fun p => p.id == postId) with
  | some post => some post
  | none => posts.findSome? (fun p => p.replies.find? (fun r => r.id == postId))

/-- `addPost` from `src/hooks/usePosts.ts`: reject (throw) on a
dangerous-content match, otherwise build the new post — sanitized text and
author name, fresh id, `likes = 0`, `likedBy = []`, `replies = []` — and
prepend it to the collection.  The nondeterministic `generateSecureId()` and
`new Date().toISOString()` are passed in as `newId` and `timestamp`.  There
is no empty-text check in the source. -/
def UsePosts.addPost (text : String) (author : User) (media : List MediaFile)
    (newId timestamp : String) (posts : List Post) : Except String (List Post × Post) :=
  if detectDangerousContent text then
    Except.error "Post contains potentially unsafe content"
  else
    let newPost : Post := Post.mk
      { id := newId
        text := sanitizeText text
        author := { id := author.id, name := sanitizeText author.name }
        timestamp := timestamp
        likes := 0
        likedBy := []
        replies := []
        parentId := none
        media := media
        isDeleted := false
        lastEdited := none }
    Except.ok (newPost :: posts, newPost)

/-- The post-level arm of the `addReply` map in `src/hooks/usePosts.ts`:
append the new reply to the matching parent's `replies` array. -/
def UsePosts.replyMapPost (parentId : String) (newReply : Post) (post : Post) : Post :=
  if post.id == parentId then
    Post.mk { post.out with replies := post.replies ++ [newReply] }
  else post

/-- `addReply` from `src/hooks/usePosts.ts`: reject dangerous content, fail
when no top-level post has id `parentId` (the source throws
`'Parent post not found'` before mutating or persisting anything), otherwise
append the freshly built reply (with `parentId` set) to the parent's
`replies` array. -/
def UsePosts.addReply (parentId text : String) (author : User) (media : List MediaFile)
    (newId timestamp : String) (posts : List Post) : Except String (List Post × Post) :=
  if detectDangerousContent text then
    Except.error "Reply contains potentially unsafe content"
  else
    match posts.find? (fun p => p.id == parentId) with
    | none => Except.error "Parent post not found"
    | some _ =>
      let newReply : Post := Post.mk
        { id := newId
          text := sanitizeText text
          author := { id := author.id, name := sanitizeText author.name }
          timestamp := timestamp
          likes := 0
          likedBy := []
          replies := []
          parentId := some parentId
          media := media
          isDeleted := false
          lastEdited := none }
      Except.ok (posts.map (UsePosts.replyMapPost parentId newReply), newReply)

/-- The reply-level arm of the `likePost` map in `src/hooks/usePosts.ts`
(the map runs only after the target was found and is not yet liked by the
user, so the reply arm re-checks only the id): bump the matching reply. -/
def UsePosts.likeMapReply (postId userId : String) (reply : Post) : Post :=
  if reply.id == postId then
    Post.mk { reply.out with likes := reply.likes + 1, likedBy := reply.likedBy ++ [userId] }
  else reply

/-- The post-level arm of the `likePost` map in `src/hooks/usePosts.ts`. -/
def UsePosts.likeMapPost (postId userId : String) (post : Post) : Post :=
  if post.id == postId then
    Post.mk { post.out with likes := post.likes + 1, likedBy := post.likedBy ++ [userId] }
  else if post.replies.any (fun r => r.id == postId) then
    Post.mk { post.out with replies := post.replies.map (UsePosts.likeMapReply postId userId) }
  else post

/-- The `updatedPosts` of `likePost` in `src/hooks/usePosts.ts`, assembled. -/
def UsePosts.likeUpdatedPosts (postId userId : String) (posts : List Post) : List Post :=
  posts.map (UsePosts.likeMapPost postId userId)

/-- `likePost` from `src/hooks/usePosts.ts`: look the target up with
`getPostById`; a missing target throws (caught, `false` returned, state
untouched); an already-liked target returns `true` with the state untouched;
otherwise the collection is rebuilt by `likeUpdatedPosts` and persisted.
The first component is the resulting in-memory collection, the second the
returned boolean. -/
def UsePosts.likePost (postId userId : String) (posts : List Post) : List Post × Bool :=
  match UsePosts.getPostById postId posts with
  | none => (posts, false)
  | some postToLike =>
    if postToLike.likedBy.contains userId then (posts, true)
    else (UsePosts.likeUpdatedPosts postId userId posts, true)

/-- The reply-level arm of the `updatePost` map in `src/hooks/usePosts.ts`:
substitute the rebuilt post at the matching reply position. -/
def UsePosts.updateMapReply (postId : String) (updatedPost : Post) (reply : Post) : Post :=
  if reply.id == postId then updatedPost else reply

/-- The post-level arm of the `updatePost` map in `src/hooks/usePosts.ts`. -/
def UsePosts.updateMapPost (postId : String) (updatedPost : Post) (post : Post) : Post :=
  if post.id == postId then updatedPost
  else if post.replies.any (fun r => r.id == postId) then
    Post.mk { post.out with replies := post.replies.map (UsePosts.updateMapReply postId updatedPost) }
  else post

/-- `updatePost` from `src/hooks/usePosts.ts`: dangerous content throws
(state untouched); a missing target throws (caught, state untouched);
otherwise the found post is rebuilt with sanitized text, `lastEdited`
stamped, and `media` replaced when supplied (the JS `media ||
postToUpdate.media` keeps the old media only when the argument is absent),
and substituted at every matching top-level or direct-reply position. -/
def UsePosts.updatePost (postId text : String) (media : Option (List MediaFile))
    (editTime : String) (posts : List Post) : List Post :=
  if detectDangerousContent text then posts
  else
    match UsePosts.getPostById postId posts with
    | none => posts
    | some postToUpdate =>
      let updatedPost : Post := Post.mk
        { postToUpdate.out with
          text := sanitizeText text
          lastEdited := some editTime
          media := media.getD postToUpdate.media }
      posts.map (UsePosts.updateMapPost postId updatedPost)

/-- One mutating Post Store operation; `create`/`reply` carry the fresh id
and timestamp the source draws from `generateSecureId()`/`Date`. -/
inductive StoreOp where
  | create (text : String) (author : User) (media : List MediaFile) (newId timestamp : String)
  | reply (parentId text : String) (author : User) (media : List MediaFile) (newId timestamp : String)
  | like (postId userId : String)
  | del (postId : String)
  | update (postId text : String) (media : Option (List MediaFile)) (editTime : String)

/-- Effect of one Post Store operation on the in-memory collection, with the
Local backend active (`deletePost` delegates to `webStorage.deletePost` and
the hook keeps the returned filtered collection); a rejected `create`/`reply`
leaves the collection untouched. -/
def applyOp (op : StoreOp) (posts : List Post) : List Post :=
  match op with
  | .create text a m i t =>
    match UsePosts.addPost text a m i t posts with
    | .ok (posts', _) => posts'
    | .error _ => posts
  | .reply pid text a m i t =>
    match UsePosts.addReply pid text a m i t posts with
    | .ok (posts', _) => posts'
    | .error _ => posts
  | .like pid u => (UsePosts.likePost pid u posts).1
  | .del pid => (WebStorage.deletePost pid posts).2
  | .update pid text m t => UsePosts.updatePost pid text m t posts

/-- `likes` is the length of `likedBy`, and `likedBy` holds no duplicates
(the spec's like-count invariant for a single post). -/
def likeOk (p : Post) : Prop := p.likes = p.likedBy.length ∧ p.likedBy.Nodup

/-- The like-count invariant over a collection: every top-level post and
every direct reply satisfies `likeOk`. -/
def InvLikes (posts : List Post) : Prop :=
  ∀ p ∈ posts, likeOk p ∧ ∀ r ∈ p.replies, likeOk r

/-- The ids contributed by one top-level post: its own and its direct
replies'. -/
def slotIds (p : Post) : List String := p.id :: p.replies.map Post.id

/-- All ids of a collection, over the union of top-level posts and their
direct replies. -/
def allIds : List Post → List String
  | [] => []
  | p :: rest => slotIds p ++ allIds rest

/-- The spec's id-uniqueness invariant: no id repeats across the union of
top-level posts and replies. -/
def UniqueIds (posts : List Post) : Prop := (allIds posts).Nodup

/-- The portion of a collection lying at depth two or greater: for each
top-level post, the `replies` lists of each of its direct replies. -/
def deepStruct (posts : List Post) : List (List (List Post)) :=
  posts.map (fun p => p.replies.map Post.replies)

@[simp] theorem Post.out_id (p : Post) : p.out.id = p.id := rfl

@[simp] theorem Post.out_likes (p : Post) : p.out.likes = p.likes := rfl

@[simp] theorem Post.out_likedBy (p : Post) : p.out.likedBy = p.likedBy := rfl

@[simp] theorem Post.out_replies (p : Post) : p.out.replies = p.replies := rfl

@[simp] theorem Post.out_isDeleted (p : Post) : p.out.isDeleted = p.isDeleted := rfl

/-- Single-character escape stage for `&` (the first `replace` of
`sanitizeText`). -/
def escAmp (x : Char) : List Char := if x = '&' then "&amp;".data else [x]

/-- Single-character escape stage for `<`. -/
def escLt (x : Char) : List Char := if x = '<' then "&lt;".data else [x]

/-- Single-character escape stage for `>`. -/
def escGt (x : Char) : List Char := if x = '>' then "&gt;".data else [x]

/-- Single-character escape stage for `"`. -/
def escQuot (x : Char) : List Char := if x = '"' then "&quot;".data else [x]

/-- Single-character escape stage for `'`. -/
def escApos (x : Char) : List Char := if x = Char.ofNat 39 then "&#x27;".data else [x]

/-- Single-character escape stage for `/`. -/
def escSlash (x : Char) : List Char := if x = '/' then "&#x2F;".data else [x]

/-- Single-character escape stage for the backtick. -/
def escTick (x : Char) : List Char := if x = Char.ofNat 96 then "&#x60;".data else [x]

theorem sanitizeText_data (s : String) (h : ¬ s = "") :
    (sanitizeText s).data =
      ((((((s.data.flatMap escAmp).flatMap escLt).flatMap escGt).flatMap
        escQuot).flatMap escApos).flatMap escSlash).flatMap escTick := by
  unfold sanitizeText
  rw [if_neg h]
  rfl

theorem escChar_chain (c : Char) :
    ((((((escAmp c).flatMap escLt).flatMap escGt).flatMap escQuot).flatMap
      escApos).flatMap escSlash).flatMap escTick = escChar c := by
  by_cases h1 : c = '&'
  · subst h1; decide
  by_cases h2 : c = '<'
  · subst h2; decide
  by_cases h3 : c = '>'
  · subst h3; decide
  by_cases h4 : c = '"'
  · subst h4; decide
  by_cases h5 : c = Char.ofNat 39
  · subst h5; decide
  by_cases h6 : c = '/'
  · subst h6; decide
  by_cases h7 : c = Char.ofNat 96
  · subst h7; decide
  simp [escAmp, escLt, escGt, escQuot, escApos, escSlash, escTick, escChar,
    h1, h2, h3, h4, h5, h6, h7]

theorem chain_eq_flatMap (l : List Char) :
    ((((((l.flatMap escAmp).flatMap escLt).flatMap escGt).flatMap
      escQuot).flatMap escApos).flatMap escSlash).flatMap escTick =
      l.flatMap escChar := by
  induction l with
  | nil => rfl
  | cons c t ih =>
    simp only [List.flatMap_cons, List.flatMap_append]
    rw [ih, escChar_chain]

/-- C4 (amended): the Content Sanitizer's `sanitizeText` is equivalent to a
single character-wise pass that escapes exactly `& < > " ' /` and the
backtick — the ampersand replacement comes first, so the entities it
produces are never re-entered by a later replacement (no double-escaping).
The Bridged backend's re-sanitization does not share this property; see the
counterexample. -/
theorem sanitizeText_single_pass (s : String) :
    sanitizeText s = String.mk (s.data.flatMap escChar) := by
  by_cases h : s = ""
  · subst h; rfl
  · have hd := sanitizeText_data s h
    rw [chain_eq_flatMap] at hd
    exact congrArg String.mk hd

/-- C4 (counterexample): the Bridged backend's per-post sanitizer
(`sanitizePost` in `electronStorage.ts`) performs the ampersand replacement
third, so the `&lt;` it produced for `<` is double-escaped into `&amp;lt;`,
unlike the Content Sanitizer's ampersand-first `sanitizeText`. -/
theorem electronSanitize_double_escapes :
    electronSanitizeText "<" = "&amp;lt;" ∧ sanitizeText "<" = "&lt;" := by
  decide

/-- A concrete top-level post used in witnesses and counterexamples. -/
def postA : Post := Post.mk
  { id := "p1", text := "hello", author := ⟨"u1", "Ann"⟩, timestamp := "t1",
    likes := 0, likedBy := [], replies := [], parentId := none, media := [],
    isDeleted := false, lastEdited := none }

/-- A concrete reply (of `postAB`) used in witnesses and counterexamples. -/
def replyB : Post := Post.mk
  { id := "r1", text := "hi back", author := ⟨"u2", "Bo"⟩, timestamp := "t2",
    likes := 0, likedBy := [], replies := [], parentId := some "p1",
    media := [], isDeleted := false, lastEdited := none }

/-- A concrete top-level post carrying the reply `replyB`. -/
def postAB : Post := Post.mk
  { id := "p1", text := "hello", author := ⟨"u1", "Ann"⟩, timestamp := "t1",
    likes := 0, likedBy := [], replies := [replyB], parentId := none,
    media := [], isDeleted := false, lastEdited := none }

/-- The post that `addPost` builds from empty text (used to exhibit that
empty text is accepted). -/
def emptyTextPost : Post := Post.mk
  { id := "id0", text := "", author := ⟨"u1", "Ann"⟩, timestamp := "t0",
    likes := 0, likedBy := [], replies := [], parentId := none, media := [],
    isDeleted := false, lastEdited := none }

/-- C2 (counterexample): `addPost` called with empty text on the empty
collection does not reject — it returns `ok` and adds a post whose `text`
is empty, contradicting the claim that empty/whitespace-only text is
rejected before any mutation. -/
theorem addPost_accepts_empty_text :
    UsePosts.addPost "" ⟨"u1", "Ann"⟩ [] "id0" "t0" [] =
      Except.ok ([emptyTextPost], emptyTextPost) := by
  rfl

/-- C2 (amended): `addPost` rejects — with the `ValidationError`-style
message, before any mutation (the error carries no collection) — exactly
when the text fails the dangerous-content check; the empty/whitespace-only
guard of the spec lives in the composer UI, not in `create`. -/
theorem addPost_rejects_dangerous (text : String) (a : User) (m : List MediaFile)
    (i ts : String) (c : List Post) (hd : detectDangerousContent text = true) :
    UsePosts.addPost text a m i ts c =
      Except.error "Post contains potentially unsafe content" := by
  unfold UsePosts.addPost
  rw [hd]
  rfl

/-- C2 (witness): the amended theorem applied at a concrete dangerous
input. -/
theorem addPost_rejects_dangerous_witness :
    UsePosts.addPost "<script>alert(1)</script>" ⟨"u1", "Ann"⟩ [] "id1" "t1" [] =
      Except.error "Post contains potentially unsafe content" :=
  addPost_rejects_dangerous "<script>alert(1)</script>" ⟨"u1", "Ann"⟩ [] "id1" "t1" []
    (by decide)

/-- C7: `addReply` with a `parentId` matching no top-level post id fails with
the `NotFoundError`-style message before building, attaching or persisting
anything (the error carries no collection, so the collection is unchanged).
The text is assumed to pass the dangerous-content check, which the source
tests first. -/
theorem addReply_notFound (parentId text : String) (a : User) (m : List MediaFile)
    (i ts : String) (c : List Post)
    (hd : detectDangerousContent text = false)
    (hp : ∀ p ∈ c, p.id ≠ parentId) :
    UsePosts.addReply parentId text a m i ts c =
      Except.error "Parent post not found" := by
  have hfind : c.find? (fun p => p.id == parentId) = none :=
    List.find?_eq_none.mpr (fun p hmem => by
      simp only [beq_iff_eq]
      exact hp p hmem)
  simp [UsePosts.addReply, hd, hfind]

/-- C7 (witness): `addReply` to a nonexistent parent on a concrete
collection. -/
theorem addReply_notFound_witness :
    UsePosts.addReply "nope" "hi" ⟨"u2", "Bo"⟩ [] "id2" "t2" [postA] =
      Except.error "Parent post not found" :=
  addReply_notFound "nope" "hi" ⟨"u2", "Bo"⟩ [] "id2" "t2" [postA]
    (by decide) (by decide)

/-- C10: in the Local backend, `deletePost` persists the target still
present but marked `isDeleted`, and `getPosts` returns the stored array
without filtering, so after `deletePost x` a reload still yields a post with
id `x` (now carrying `isDeleted = true`). -/
theorem deletePost_tombstone_reappears (x : String) (c : List Post)
    (h : ∃ p ∈ c, p.id = x) :
    ∃ pp ∈ WebStorage.getPosts (WebStorage.deletePost x c).1,
      pp.id = x ∧ pp.isDeleted = true := by
  obtain ⟨p, hmem, hid⟩ := h
  refine ⟨WebStorage.deleteMarkPost x p, ?_, ?_, ?_⟩
  · show WebStorage.deleteMarkPost x p ∈ c.map (WebStorage.deleteMarkPost x)
    exact List.mem_map_of_mem _ hmem
  · unfold WebStorage.deleteMarkPost
    rw [if_pos (beq_iff_eq.mpr hid)]
    simpa using hid
  · unfold WebStorage.deleteMarkPost
    rw [if_pos (beq_iff_eq.mpr hid)]
    simp

/-- C10 (witness): deleting the concrete post `postA` and reloading. -/
theorem deletePost_tombstone_reappears_witness :
    ∃ pp ∈ WebStorage.getPosts (WebStorage.deletePost "p1" [postA]).1,
      pp.id = "p1" ∧ pp.isDeleted = true :=
  deletePost_tombstone_reappears "p1" [postA] (by decide)

theorem WebStorage.deleteMarkReply_eq_self (x : String) (r : Post) (h : r.id ≠ x) :
    WebStorage.deleteMarkReply x r = r := by
  unfold WebStorage.deleteMarkReply
  rw [if_neg]
  simp [h]

theorem WebStorage.deleteMarkPost_eq_self (x : String) (p : Post) (h1 : p.id ≠ x)
    (h2 : ∀ r ∈ p.replies, r.id ≠ x) : WebStorage.deleteMarkPost x p = p := by
  unfold WebStorage.deleteMarkPost
  rw [if_neg (by simp [h1])]
  by_cases hl : p.replies.length > 0
  · rw [if_pos hl]
    rw [show p.replies.map (WebStorage.deleteMarkReply x) = p.replies from by
      rw [List.map_congr_left (fun r hr => WebStorage.deleteMarkReply_eq_self x r (h2 r hr))]
      exact List.map_id _]
    exact Post.mk_out p
  · rw [if_neg hl]

theorem MainIpc.deleteMapPost_eq_some (x : String) (p : Post) (h1 : p.id ≠ x)
    (h2 : ∀ r ∈ p.replies, r.id ≠ x) : MainIpc.deleteMapPost x p = some p := by
  unfold MainIpc.deleteMapPost
  rw [if_pos (by simp [h1])]
  by_cases hl : p.replies.length > 0
  · rw [if_pos hl]
    rw [show p.replies.filter (fun r => !(r.id == x)) = p.replies from
      List.filter_eq_self.mpr (fun r hr => by simp [h2 r hr])]
    rw [show Post.mk { p.out with replies := p.replies } = p from Post.mk_out p]
  · rw [if_neg hl]

/-- C8: `delete` on an id absent from the collection (no top-level post and
no reply carries it) is a no-op in both backends: the Local backend stores
the collection unchanged and returns it unchanged (given the collection
carries no stale tombstone, i.e. it is a visible collection), and the
Bridged backend returns the collection unchanged.  Both functions are total,
so no error is raised. -/
theorem delete_absent_noop (x : String) (c : List Post)
    (habs : ∀ p ∈ c, p.id ≠ x ∧ ∀ r ∈ p.replies, r.id ≠ x)
    (hclean : ∀ p ∈ c, p.isDeleted = false) :
    WebStorage.deletePost x c = (c, c) ∧ MainIpc.deletePost x c = c := by
  have hmark : WebStorage.deleteUpdatedPosts x c = c := by
    unfold WebStorage.deleteUpdatedPosts
    rw [List.map_congr_left
      (fun p hp => WebStorage.deleteMarkPost_eq_self x p (habs p hp).1 (habs p hp).2)]
    exact List.map_id _
  refine ⟨?_, ?_⟩
  · rw [show WebStorage.deletePost x c =
        (WebStorage.deleteUpdatedPosts x c,
          (WebStorage.deleteUpdatedPosts x c).filter (fun post => !post.isDeleted)) from rfl]
    rw [hmark]
    rw [List.filter_eq_self.mpr (fun p hp => by simp [hclean p hp])]
  · unfold MainIpc.deletePost
    rw [List.map_congr_left
      (fun p hp => MainIpc.deleteMapPost_eq_some x p (habs p hp).1 (habs p hp).2)]
    rw [show c.map some = List.map some c from rfl]
    rw [show (List.map some c).filterMap id = c.filterMap (id ∘ some) from
      List.filterMap_map some id c]
    exact List.filterMap_some c

/-- C8 (witness): deleting the absent id `"zz"` from a concrete
collection. -/
theorem delete_absent_noop_witness :
    WebStorage.deletePost "zz" [postAB] = ([postAB], [postAB]) ∧
      MainIpc.deletePost "zz" [postAB] = [postAB] :=
  delete_absent_noop "zz" [postAB] (by decide) (by decide)

theorem MainIpc.deletePost_eq_map (x : String) (c : List Post)
    (htop : ∀ p ∈ c, p.id ≠ x) :
    MainIpc.deletePost x c = c.map (fun p =>
      if p.replies.length > 0 then
        Post.mk { p.out with replies := p.replies.filter (fun r => !(r.id == x)) }
      else p) := by
  unfold MainIpc.deletePost
  rw [List.map_congr_left (fun p hp => show MainIpc.deleteMapPost x p =
      some (if p.replies.length > 0 then
        Post.mk { p.out with replies := p.replies.filter (fun r => !(r.id == x)) }
      else p) from by
    unfold MainIpc.deleteMapPost
    rw [if_pos (by simp [htop p hp])])]
  rw [List.filterMap_map]
  exact congrFun (List.filterMap_eq_map _) c

/-- C1 (counterexample): in the Local backend, deleting the reply id `"r1"`
does not remove the reply from its parent's `replies` array — the returned
(visible) collection still carries a reply with id `"r1"` (tombstoned), and
`getPostById` still finds a post with that id. -/
theorem webDelete_keeps_tombstoned_reply :
    (UsePosts.getPostById "r1" ((WebStorage.deletePost "r1" [postAB]).2)).map Post.id =
        some "r1" ∧
      ((WebStorage.deletePost "r1" [postAB]).2.map
        (fun p => p.replies.map (fun r => (r.id, r.isDeleted)))) = [[("r1", true)]] := by
  decide

/-- C1 (amended): in the Bridged backend the claim holds — deleting an id
that names only a reply removes that reply from its parent's `replies`
array, after which no lookup finds a post with that id, while the parent and
every other post remain present (ids unchanged, only replies with the target
id filtered out).  In the Local backend the reply is instead tombstoned in
place (see the counterexample). -/
theorem delete_reply_bridged_removes (x : String) (c : List Post)
    (hreply : ∃ p ∈ c, ∃ r ∈ p.replies, r.id = x)
    (htop : ∀ p ∈ c, p.id ≠ x) :
    UsePosts.getPostById x (MainIpc.deletePost x c) = none ∧
      (MainIpc.deletePost x c).map Post.id = c.map Post.id ∧
      ∀ pq ∈ MainIpc.deletePost x c, ∃ p ∈ c, pq.id = p.id ∧
        pq.replies = p.replies.filter (fun r => !(r.id == x)) := by
  rw [MainIpc.deletePost_eq_map x c htop]
  have hGid : ∀ p : Post, (if p.replies.length > 0 then
      Post.mk { p.out with replies := p.replies.filter (fun r => !(r.id == x)) }
    else p).id = p.id := by
    intro p
    by_cases hl : p.replies.length > 0
    · rw [if_pos hl]; rfl
    · rw [if_neg hl]
  have hGreplies : ∀ p : Post, (if p.replies.length > 0 then
      Post.mk { p.out with replies := p.replies.filter (fun r => !(r.id == x)) }
    else p).replies = p.replies.filter (fun r => !(r.id == x)) := by
    intro p
    by_cases hl : p.replies.length > 0
    · rw [if_pos hl]; rfl
    · rw [if_neg hl]
      have : p.replies = [] := List.length_eq_zero.mp (Nat.eq_zero_of_not_pos hl)
      rw [this]
      rfl
  refine ⟨?_, ?_, ?_⟩
  · unfold UsePosts.getPostById
    have hf : (c.map (fun p =>
        if p.replies.length > 0 then
          Post.mk { p.out with replies := p.replies.filter (fun r => !(r.id == x)) }
        else p)).find? (fun p => p.id == x) = none := by
      refine List.find?_eq_none.mpr (fun q hq => ?_)
      obtain ⟨p, hp, rfl⟩ := List.mem_map.mp hq
      rw [hGid p]
      simp [htop p hp]
    rw [hf]
    have hs : (c.map (fun p =>
        if p.replies.length > 0 then
          Post.mk { p.out with replies := p.replies.filter (fun r => !(r.id == x)) }
        else p)).findSome? (fun p => p.replies.find? (fun r => r.id == x)) = none := by
      refine List.findSome?_eq_none.mpr (fun q hq => ?_)
      obtain ⟨p, hp, rfl⟩ := List.mem_map.mp hq
      rw [hGreplies p]
      refine List.find?_eq_none.mpr (fun r hr => ?_)
      have := (List.mem_filter.mp hr).2
      simp at this
      simp [this]
    rw [hs]
  · rw [List.map_map]
    exact List.map_congr_left (fun p _ => hGid p)
  · intro pq hq
    obtain ⟨p, hp, rfl⟩ := List.mem_map.mp hq
    exact ⟨p, hp, hGid p, hGreplies p⟩

/-- C1 (witness): the amended theorem applied to a concrete collection whose
post `postAB` carries the reply `replyB` with id `"r1"`. -/
theorem delete_reply_bridged_removes_witness :
    UsePosts.getPostById "r1" (MainIpc.deletePost "r1" [postAB]) = none ∧
      (MainIpc.deletePost "r1" [postAB]).map Post.id = [postAB].map Post.id ∧
      ∀ pq ∈ MainIpc.deletePost "r1" [postAB], ∃ p ∈ [postAB], pq.id = p.id ∧
        pq.replies = p.replies.filter (fun r => !(r.id == "r1")) :=
  delete_reply_bridged_removes "r1" [postAB] (by decide) (by decide)

theorem backend_delete_agree (x : String) : ∀ (c : List Post),
    (∀ p ∈ c, p.isDeleted = false) →
    (∀ p ∈ c, ∀ r ∈ p.replies, r.id ≠ x) →
    (WebStorage.deletePost x c).2 = MainIpc.deletePost x c := by
  intro c
  induction c with
  | nil => intro _ _; rfl
  | cons p tl ih =>
    intro hclean hnoreply
    have hcleanT : ∀ q ∈ tl, q.isDeleted = false :=
      fun q hq => hclean q (List.mem_cons_of_mem p hq)
    have hnorT : ∀ q ∈ tl, ∀ r ∈ q.replies, r.id ≠ x :=
      fun q hq => hnoreply q (List.mem_cons_of_mem p hq)
    have hW : (WebStorage.deletePost x (p :: tl)).2 =
        List.filter (fun post => !post.isDeleted)
          (WebStorage.deleteMarkPost x p :: tl.map (WebStorage.deleteMarkPost x)) := rfl
    have hM : MainIpc.deletePost x (p :: tl) =
        List.filterMap id (MainIpc.deleteMapPost x p :: tl.map (MainIpc.deleteMapPost x)) := rfl
    rw [hW, hM]
    by_cases hpx : p.id = x
    · have h1 : WebStorage.deleteMarkPost x p = Post.mk { p.out with isDeleted := true } := by
        unfold WebStorage.deleteMarkPost
        rw [if_pos (beq_iff_eq.mpr hpx)]
      have h2 : MainIpc.deleteMapPost x p = none := by
        unfold MainIpc.deleteMapPost
        rw [if_neg]
        simp [hpx]
      rw [h1, h2, List.filter_cons, List.filterMap_cons]
      rw [if_neg (by simp)]
      exact ih hcleanT hnorT
    · have h1 : WebStorage.deleteMarkPost x p = p :=
        WebStorage.deleteMarkPost_eq_self x p hpx (hnoreply p (List.mem_cons_self p tl))
      have h2 : MainIpc.deleteMapPost x p = some p :=
        MainIpc.deleteMapPost_eq_some x p hpx (hnoreply p (List.mem_cons_self p tl))
      rw [h1, h2, List.filter_cons, List.filterMap_cons]
      rw [if_pos (by simp [hclean p (List.mem_cons_self p tl)])]
      exact congrArg (p :: ·) (ih hcleanT hnorT)

theorem backend_like_agree (pid u : String) (c : List Post)
    (hp : pid ≠ "") (hu : u ≠ "") :
    WebStorage.likePost pid u c = MainIpc.likePost pid u c := by
  unfold MainIpc.likePost
  rw [if_neg (by simp [hp, hu])]
  rfl

/-- C3 (counterexample): the same single Store operation — delete of the
reply id `"r1"` — produces structurally different collections on the two
backends: the Local backend's visible result still carries the reply
(tombstoned in place), the Bridged backend's result does not; hence the
backends are not equivalent, and the Bridged backend does not realize
`deleteById` as soft-delete-then-filter (no tombstone survives). -/
theorem backend_delete_diverge :
    ((WebStorage.deletePost "r1" [postAB]).2.map (fun p => p.replies.map Post.id)) =
        [["r1"]] ∧
      ((MainIpc.deletePost "r1" [postAB]).map (fun p => p.replies.map Post.id)) = [[]] ∧
      ((WebStorage.deletePost "r1" [postAB]).1.map
        (fun p => p.replies.map (fun r => (r.id, r.isDeleted)))) = [[("r1", true)]] := by
  decide

/-- C3 (amended): the two backends agree on `like` (for non-empty ids, the
Bridged handler's falsy-argument guard aside) and on deletes whose target is
not a reply id, starting from a tombstone-free collection; they diverge on
reply deletion, where only the Local backend performs the
soft-delete-then-filter sequence (see the counterexample). -/
theorem backend_equivalence_partial (x pid u : String) (c : List Post)
    (hclean : ∀ p ∈ c, p.isDeleted = false)
    (hnoreply : ∀ p ∈ c, ∀ r ∈ p.replies, r.id ≠ x)
    (hp : pid ≠ "") (hu : u ≠ "") :
    (WebStorage.deletePost x c).2 = MainIpc.deletePost x c ∧
      WebStorage.likePost pid u c = MainIpc.likePost pid u c :=
  ⟨backend_delete_agree x c hclean hnoreply, backend_like_agree pid u c hp hu⟩

/-- C3 (witness): agreement at a concrete top-level delete and like. -/
theorem backend_equivalence_partial_witness :
    (WebStorage.deletePost "p1" [postAB]).2 = MainIpc.deletePost "p1" [postAB] ∧
      WebStorage.likePost "p1" "u1" [postAB] = MainIpc.likePost "p1" "u1" [postAB] :=
  backend_equivalence_partial "p1" "p1" "u1" [postAB]
    (by decide) (by decide) (by decide) (by decide)

theorem UsePosts.getPostById_spec (pid : String) (c : List Post) (t : Post)
    (h : UsePosts.getPostById pid c = some t) :
    t.id = pid ∧ (t ∈ c ∨ ∃ p ∈ c, t ∈ p.replies) := by
  unfold UsePosts.getPostById at h
  cases hf : c.find? (fun p => p.id == pid) with
  | some q =>
    rw [hf] at h
    have hqt : q = t := Option.some.inj h
    subst hqt
    have hq := List.find?_some hf
    exact ⟨beq_iff_eq.mp hq, Or.inl (List.mem_of_find?_eq_some hf)⟩
  | none =>
    rw [hf] at h
    obtain ⟨p, hp, hfind⟩ := List.exists_of_findSome?_eq_some h
    have ht := List.find?_some hfind
    exact ⟨beq_iff_eq.mp ht, Or.inr ⟨p, hp, List.mem_of_find?_eq_some hfind⟩⟩

theorem UsePosts.likeMapReply_replies (pid u : String) (r : Post) :
    (UsePosts.likeMapReply pid u r).replies = r.replies := by
  unfold UsePosts.likeMapReply
  split <;> simp

theorem UsePosts.likeMapPost_deep (pid u : String) (p : Post) :
    (UsePosts.likeMapPost pid u p).replies.map Post.replies =
      p.replies.map Post.replies := by
  unfold UsePosts.likeMapPost
  split
  · simp
  · split
    · simp only [Post.replies_mk]
      rw [List.map_map]
      exact List.map_congr_left (fun r _ => UsePosts.likeMapReply_replies pid u r)
    · rfl

theorem WebStorage.deleteMarkReply_replies (x : String) (r : Post) :
    (WebStorage.deleteMarkReply x r).replies = r.replies := by
  unfold WebStorage.deleteMarkReply
  split <;> simp

theorem WebStorage.deleteMarkPost_deep (x : String) (p : Post) :
    (WebStorage.deleteMarkPost x p).replies.map Post.replies =
      p.replies.map Post.replies := by
  unfold WebStorage.deleteMarkPost
  split
  · simp
  · split
    · simp only [Post.replies_mk]
      rw [List.map_map]
      exact List.map_congr_left (fun r _ => WebStorage.deleteMarkReply_replies x r)
    · rfl

theorem deepStruct_likeUpdated (pid u : String) (c : List Post) :
    deepStruct (UsePosts.likeUpdatedPosts pid u c) = deepStruct c := by
  unfold deepStruct UsePosts.likeUpdatedPosts
  rw [List.map_map]
  exact List.map_congr_left (fun p _ => UsePosts.likeMapPost_deep pid u p)

theorem deepStruct_likePost (pid u : String) (c : List Post) :
    deepStruct (UsePosts.likePost pid u c).1 = deepStruct c := by
  rcases h : UsePosts.getPostById pid c with _ | t
  · simp [UsePosts.likePost, h]
  · by_cases hc : t.likedBy.contains u = true
    · simp only [UsePosts.likePost, h]
      rw [if_pos hc]
    · simp only [UsePosts.likePost, h]
      rw [if_neg hc]
      exact deepStruct_likeUpdated pid u c

theorem deepStruct_deleteStored (x : String) (c : List Post) :
    deepStruct (WebStorage.deletePost x c).1 = deepStruct c := by
  show deepStruct (WebStorage.deleteUpdatedPosts x c) = deepStruct c
  unfold deepStruct WebStorage.deleteUpdatedPosts
  rw [List.map_map]
  exact List.map_congr_left (fun p _ => WebStorage.deleteMarkPost_deep x p)

/-- C9: the search depth of the Post Store is bounded at one level, for any
stored data, including data nested deeper than the model allows: a
successful `getPostById` returns a top-level post or a direct reply of one
(never anything deeper), and `likePost` and the Local backend's persisted
delete result leave everything at depth two or greater unchanged (the
`replies` arrays of direct replies are carried over untouched). -/
theorem search_depth_bounded (pid u : String) (c : List Post) :
    (∀ t, UsePosts.getPostById pid c = some t → t ∈ c ∨ ∃ p ∈ c, t ∈ p.replies) ∧
      deepStruct (UsePosts.likePost pid u c).1 = deepStruct c ∧
      deepStruct (WebStorage.deletePost pid c).1 = deepStruct c :=
  ⟨fun t ht => (UsePosts.getPostById_spec pid c t ht).2,
    deepStruct_likePost pid u c, deepStruct_deleteStored pid c⟩

/-- C9 (witness): the depth bound at a concrete collection. -/
theorem search_depth_bounded_witness :
    (∀ t, UsePosts.getPostById "r1" [postAB] = some t →
        t ∈ [postAB] ∨ ∃ p ∈ [postAB], t ∈ p.replies) ∧
      deepStruct (UsePosts.likePost "r1" "u1" [postAB]).1 = deepStruct [postAB] ∧
      deepStruct (WebStorage.deletePost "r1" [postAB]).1 = deepStruct [postAB] :=
  search_depth_bounded "r1" "u1" [postAB]

theorem find?_map_of_id (g : Post → Post) (hg : ∀ p, (g p).id = p.id)
    (pid : String) (l : List Post) :
    (l.map g).find? (fun p => p.id == pid) =
      (l.find? (fun p => p.id == pid)).map g := by
  have hpred : ((fun p => p.id == pid) ∘ g) = (fun p : Post => p.id == pid) :=
    funext (fun p => by simp [Function.comp, hg p])
  rw [List.find?_map, hpred]

theorem UsePosts.likeMapReply_id (pid u : String) (r : Post) :
    (UsePosts.likeMapReply pid u r).id = r.id := by
  unfold UsePosts.likeMapReply
  split <;> simp

theorem UsePosts.likeMapPost_id (pid u : String) (p : Post) :
    (UsePosts.likeMapPost pid u p).id = p.id := by
  unfold UsePosts.likeMapPost
  split
  · simp
  · split <;> simp

theorem findSome?_map_rel {α β : Type} (F : α → α) (g : α → Option β) (h : β → β) :
    ∀ (l : List α), (∀ a ∈ l, g (F a) = (g a).map h) →
      (l.map F).findSome? g = (l.findSome? g).map h := by
  intro l
  induction l with
  | nil => intro _; rfl
  | cons a t ih =>
    intro hrel
    rw [List.map_cons, List.findSome?_cons, List.findSome?_cons]
    rw [hrel a (List.mem_cons_self a t)]
    cases hga : g a with
    | some b => rfl
    | none => exact ih (fun x hx => hrel x (List.mem_cons_of_mem a hx))

theorem UsePosts.getPostById_likeUpdated (pid u : String) (c : List Post) (t : Post)
    (h : UsePosts.getPostById pid c = some t) :
    UsePosts.getPostById pid (UsePosts.likeUpdatedPosts pid u c) =
      some (Post.mk { t.out with likes := t.likes + 1, likedBy := t.likedBy ++ [u] }) := by
  unfold UsePosts.getPostById at h ⊢
  cases hf : c.find? (fun p => p.id == pid) with
  | some q =>
    rw [hf] at h
    have hqt : q = t := Option.some.inj h
    subst hqt
    have hmap : (UsePosts.likeUpdatedPosts pid u c).find? (fun p => p.id == pid) =
        some (UsePosts.likeMapPost pid u q) := by
      unfold UsePosts.likeUpdatedPosts
      rw [find?_map_of_id (UsePosts.likeMapPost pid u) (UsePosts.likeMapPost_id pid u) pid c,
        hf]
      rfl
    rw [hmap]
    have hq := List.find?_some hf
    unfold UsePosts.likeMapPost
    rw [if_pos hq]
  | none =>
    rw [hf] at h
    have hmapf : (UsePosts.likeUpdatedPosts pid u c).find? (fun p => p.id == pid) = none := by
      unfold UsePosts.likeUpdatedPosts
      rw [find?_map_of_id (UsePosts.likeMapPost pid u) (UsePosts.likeMapPost_id pid u) pid c,
        hf]
      rfl
    rw [hmapf]
    have hrel : ∀ p ∈ c,
        (UsePosts.likeMapPost pid u p).replies.find? (fun r => r.id == pid) =
          (p.replies.find? (fun r => r.id == pid)).map (UsePosts.likeMapReply pid u) := by
      intro p hp
      have hpid : ¬((p.id == pid) = true) := List.find?_eq_none.mp hf p hp
      unfold UsePosts.likeMapPost
      rw [if_neg hpid]
      by_cases hany : (p.replies.any (fun r => r.id == pid)) = true
      · rw [if_pos hany]
        simp only [Post.replies_mk]
        exact find?_map_of_id (UsePosts.likeMapReply pid u)
          (UsePosts.likeMapReply_id pid u) pid p.replies
      · rw [if_neg hany]
        have hnone : p.replies.find? (fun r => r.id == pid) = none := by
          refine List.find?_eq_none.mpr (fun r hr hcontra => ?_)
          exact hany (List.any_eq_true.mpr ⟨r, hr, hcontra⟩)
        rw [hnone]
        rfl
    have hfs := findSome?_map_rel (UsePosts.likeMapPost pid u)
      (fun p => p.replies.find? (fun r => r.id == pid))
      (UsePosts.likeMapReply pid u) c hrel
    have h2 : c.findSome? (fun p => p.replies.find? (fun r => r.id == pid)) = some t := h
    show (UsePosts.likeUpdatedPosts pid u c).findSome?
        (fun p => p.replies.find? (fun r => r.id == pid)) = _
    unfold UsePosts.likeUpdatedPosts
    rw [hfs, h2]
    obtain ⟨p, hp, hfind⟩ := List.exists_of_findSome?_eq_some h2
    have ht := List.find?_some hfind
    show some (UsePosts.likeMapReply pid u t) = _
    unfold UsePosts.likeMapReply
    rw [if_pos ht]

/-- C5: `likePost` is idempotent.  For a collection containing the target
(`getPostById` finds `t`) whose `likedBy` satisfies the model's set
semantics (`u` occurs at most once), after `likePost` the found target's
`likedBy` counts `u` exactly once, and a second identical call returns
`true` and leaves the collection exactly as the first call left it. -/
theorem like_idempotent (pid u : String) (c : List Post) (t : Post)
    (h : UsePosts.getPostById pid c = some t)
    (hcnt : t.likedBy.count u ≤ 1) :
    UsePosts.likePost pid u (UsePosts.likePost pid u c).1 =
        ((UsePosts.likePost pid u c).1, true) ∧
      ∃ tt, UsePosts.getPostById pid (UsePosts.likePost pid u c).1 = some tt ∧
        tt.likedBy.count u = 1 := by
  by_cases hc : t.likedBy.contains u = true
  · have hstate : (UsePosts.likePost pid u c).1 = c := by
      simp only [UsePosts.likePost, h]
      rw [if_pos hc]
    rw [hstate]
    constructor
    · simp only [UsePosts.likePost, h]
      rw [if_pos hc]
    · refine ⟨t, h, ?_⟩
      have hmem : u ∈ t.likedBy := by simpa using hc
      have h1 : 0 < t.likedBy.count u := List.count_pos_iff.mpr hmem
      omega
  · have hstate : (UsePosts.likePost pid u c).1 = UsePosts.likeUpdatedPosts pid u c := by
      simp only [UsePosts.likePost, h]
      rw [if_neg hc]
    have hfound := UsePosts.getPostById_likeUpdated pid u c t h
    have hmem : u ∉ t.likedBy := by simpa using hc
    rw [hstate]
    constructor
    · simp only [UsePosts.likePost, hfound]
      rw [if_pos (by simp)]
    · refine ⟨_, hfound, ?_⟩
      simp only [Post.likedBy_mk]
      have hz : t.likedBy.count u = 0 := List.count_eq_zero.mpr hmem
      simp [List.count_append, hz]

/-- C5 (witness): liking the concrete post `postA` twice. -/
theorem like_idempotent_witness :
    UsePosts.likePost "p1" "u1" (UsePosts.likePost "p1" "u1" [postA]).1 =
        ((UsePosts.likePost "p1" "u1" [postA]).1, true) ∧
      ∃ tt, UsePosts.getPostById "p1" (UsePosts.likePost "p1" "u1" [postA]).1 = some tt ∧
        tt.likedBy.count "u1" = 1 :=
  like_idempotent "p1" "u1" [postA] postA rfl (by decide)

theorem nodup_append_singleton {l : List String} {a : String}
    (hn : l.Nodup) (ha : a ∉ l) : (l ++ [a]).Nodup := by
  rw [List.nodup_append]
  refine ⟨hn, List.nodup_singleton a, fun x hx hxa => ?_⟩
  rw [List.mem_singleton] at hxa
  subst hxa
  exact ha hx

theorem uniqueIds_cons {a : Post} {tl : List Post} (h : UniqueIds (a :: tl)) :
    (slotIds a).Nodup ∧ UniqueIds tl ∧ (slotIds a).Disjoint (allIds tl) := by
  have he : allIds (a :: tl) = slotIds a ++ allIds tl := rfl
  rw [UniqueIds, he, List.nodup_append] at h
  exact h

theorem mem_allIds_top (p : Post) : ∀ (c : List Post), p ∈ c → p.id ∈ allIds c := by
  intro c
  induction c with
  | nil => intro h; cases h
  | cons q tl ih =>
    intro h
    rw [show allIds (q :: tl) = slotIds q ++ allIds tl from rfl]
    rcases List.mem_cons.mp h with h1 | h2
    · subst h1
      exact List.mem_append_left _ (List.mem_cons_self _ _)
    · exact List.mem_append_right _ (ih h2)

theorem mem_allIds_reply (p r : Post) :
    ∀ (c : List Post), p ∈ c → r ∈ p.replies → r.id ∈ allIds c := by
  intro c
  induction c with
  | nil => intro h; cases h
  | cons q tl ih =>
    intro h hr
    rw [show allIds (q :: tl) = slotIds q ++ allIds tl from rfl]
    rcases List.mem_cons.mp h with h1 | h2
    · subst h1
      exact List.mem_append_left _
        (List.mem_cons_of_mem _ (List.mem_map_of_mem Post.id hr))
    · exact List.mem_append_right _ (ih h2 hr)

theorem uniq_top_top : ∀ (c : List Post), UniqueIds c →
    ∀ p ∈ c, ∀ q ∈ c, p.id = q.id → p = q := by
  intro c
  induction c with
  | nil => intro _ p hp; cases hp
  | cons a tl ih =>
    intro hu p hp q hq heq
    obtain ⟨hs, ht, hdisj⟩ := uniqueIds_cons hu
    rcases List.mem_cons.mp hp with rfl | hp' <;> rcases List.mem_cons.mp hq with rfl | hq'
    · rfl
    · exact absurd (heq ▸ mem_allIds_top q tl hq')
        (hdisj (List.mem_cons_self _ _))
    · exact absurd (heq ▸ mem_allIds_top p tl hp')
        (fun hm => hdisj (List.mem_cons_self _ _) hm)
    · exact ih ht p hp' q hq' heq

theorem uniq_top_reply : ∀ (c : List Post), UniqueIds c →
    ∀ p ∈ c, ∀ q ∈ c, ∀ r ∈ q.replies, p.id ≠ r.id := by
  intro c
  induction c with
  | nil => intro _ p hp; cases hp
  | cons a tl ih =>
    intro hu p hp q hq r hr heq
    obtain ⟨hs, ht, hdisj⟩ := uniqueIds_cons hu
    rcases List.mem_cons.mp hp with rfl | hp' <;> rcases List.mem_cons.mp hq with rfl | hq'
    · exact (List.nodup_cons.mp hs).1 (heq ▸ List.mem_map_of_mem Post.id hr)
    · exact hdisj (List.mem_cons_self _ _) (heq ▸ mem_allIds_reply q r tl hq' hr)
    · have hrs : r.id ∈ slotIds q :=
        List.mem_cons_of_mem _ (List.mem_map_of_mem Post.id hr)
      exact hdisj hrs (heq ▸ mem_allIds_top p tl hp')
    · exact ih ht p hp' q hq' r hr heq

theorem uniq_reply_reply : ∀ (c : List Post), UniqueIds c →
    ∀ p ∈ c, ∀ r ∈ p.replies, ∀ q ∈ c, ∀ s ∈ q.replies, r.id = s.id → r = s := by
  intro c
  induction c with
  | nil => intro _ p hp; cases hp
  | cons a tl ih =>
    intro hu p hp r hr q hq s hs heq
    obtain ⟨hsl, ht, hdisj⟩ := uniqueIds_cons hu
    rcases List.mem_cons.mp hp with rfl | hp' <;> rcases List.mem_cons.mp hq with rfl | hq'
    · exact List.inj_on_of_nodup_map (List.nodup_cons.mp hsl).2 hr hs heq
    · exact absurd heq (fun he => hdisj
        (List.mem_cons_of_mem _ (List.mem_map_of_mem Post.id hr))
        (he ▸ mem_allIds_reply q s tl hq' hs))
    · exact absurd heq (fun he => hdisj
        (List.mem_cons_of_mem _ (List.mem_map_of_mem Post.id hs))
        (he ▸ mem_allIds_reply p r tl hp' hr))
    · exact ih ht p hp' r hr q hq' s hs heq

theorem like_targets_not_liked (pid u : String) (c : List Post) (t : Post)
    (hu : UniqueIds c) (h : UsePosts.getPostById pid c = some t)
    (hmem : u ∉ t.likedBy) :
    (∀ p ∈ c, p.id = pid → u ∉ p.likedBy) ∧
      (∀ p ∈ c, ∀ r ∈ p.replies, r.id = pid → u ∉ r.likedBy) := by
  obtain ⟨hid, hloc⟩ := UsePosts.getPostById_spec pid c t h
  constructor
  · intro p hp hpid
    rcases hloc with htc | ⟨q, hq, htq⟩
    · have hpt : p = t := uniq_top_top c hu p hp t htc (hpid.trans hid.symm)
      subst hpt
      exact hmem
    · exact absurd (hpid.trans hid.symm) (uniq_top_reply c hu p hp q hq t htq)
  · intro p hp r hr hrid
    rcases hloc with htc | ⟨q, hq, htq⟩
    · exact absurd (hrid.trans hid.symm).symm (uniq_top_reply c hu t htc p hp r hr)
    · have hrt : r = t := uniq_reply_reply c hu p hp r hr q hq t htq (hrid.trans hid.symm)
      subst hrt
      exact hmem

theorem update_target_ok (pid : String) (c : List Post) (t0 : Post)
    (hu : UniqueIds c) (h : UsePosts.getPostById pid c = some t0)
    (hinv : InvLikes c) :
    likeOk t0 ∧ (∀ p ∈ c, p.id = pid → ∀ r ∈ t0.replies, likeOk r) := by
  obtain ⟨hid, hloc⟩ := UsePosts.getPostById_spec pid c t0 h
  rcases hloc with htc | ⟨q, hq, htq⟩
  · exact ⟨(hinv t0 htc).1, fun p hp hpid => (hinv t0 htc).2⟩
  · refine ⟨(hinv q hq).2 t0 htq, fun p hp hpid => ?_⟩
    exact absurd (hpid.trans hid.symm) (uniq_top_reply c hu p hp q hq t0 htq)

theorem invLikes_create (text : String) (a : User) (m : List MediaFile)
    (i ts : String) (c : List Post) (hinv : InvLikes c) :
    InvLikes (applyOp (StoreOp.create text a m i ts) c) := by
  simp only [applyOp]
  unfold UsePosts.addPost
  by_cases hd : detectDangerousContent text = true
  · rw [if_pos hd]
    exact hinv
  · rw [if_neg hd]
    intro p hp
    rcases List.mem_cons.mp hp with rfl | hp'
    · refine ⟨⟨?_, ?_⟩, ?_⟩
      · simp
      · simp
      · intro r hr
        simp at hr
    · exact hinv p hp'

theorem invLikes_reply (pid text : String) (a : User) (m : List MediaFile)
    (i ts : String) (c : List Post) (hinv : InvLikes c) :
    InvLikes (applyOp (StoreOp.reply pid text a m i ts) c) := by
  simp only [applyOp]
  unfold UsePosts.addReply
  by_cases hd : detectDangerousContent text = true
  · rw [if_pos hd]
    exact hinv
  · rw [if_neg hd]
    cases hf : c.find? (fun p => p.id == pid) with
    | none => exact hinv
    | some parent =>
      intro pq hpq
      obtain ⟨p, hp, rfl⟩ := List.mem_map.mp hpq
      unfold UsePosts.replyMapPost
      by_cases hpp : (p.id == pid) = true
      · rw [if_pos hpp]
        refine ⟨?_, ?_⟩
        · have hok := (hinv p hp).1
          unfold likeOk at hok ⊢
          simpa using hok
        · intro r hr
          simp only [Post.replies_mk] at hr
          rcases List.mem_append.mp hr with hro | hrn
          · exact (hinv p hp).2 r hro
          · rw [List.mem_singleton] at hrn
            subst hrn
            exact ⟨by simp, by simp⟩
      · rw [if_neg hpp]
        exact hinv p hp

theorem invLikes_like (pid u : String) (c : List Post)
    (hu : UniqueIds c) (hinv : InvLikes c) :
    InvLikes (applyOp (StoreOp.like pid u) c) := by
  show InvLikes (UsePosts.likePost pid u c).1
  cases h : UsePosts.getPostById pid c with
  | none =>
    simp only [UsePosts.likePost, h]
    exact hinv
  | some t =>
    by_cases hc : t.likedBy.contains u = true
    · simp only [UsePosts.likePost, h]
      rw [if_pos hc]
      exact hinv
    · simp only [UsePosts.likePost, h]
      rw [if_neg hc]
      have hmem : u ∉ t.likedBy := by simpa using hc
      obtain ⟨htop, hrep⟩ := like_targets_not_liked pid u c t hu h hmem
      intro pq hpq
      obtain ⟨p, hp, rfl⟩ := List.mem_map.mp hpq
      unfold UsePosts.likeMapPost
      by_cases hpp : (p.id == pid) = true
      · rw [if_pos hpp]
        obtain ⟨hl, hn⟩ := (hinv p hp).1
        refine ⟨⟨?_, ?_⟩, ?_⟩
        · simp [hl]
        · show (p.likedBy ++ [u]).Nodup
          exact nodup_append_singleton hn (htop p hp (beq_iff_eq.mp hpp))
        · intro r hr
          simp only [Post.replies_mk] at hr
          exact (hinv p hp).2 r hr
      · rw [if_neg hpp]
        by_cases hany : (p.replies.any (fun r => r.id == pid)) = true
        · rw [if_pos hany]
          refine ⟨?_, ?_⟩
          · have hok := (hinv p hp).1
            unfold likeOk at hok ⊢
            simpa using hok
          · intro rq hrq
            simp only [Post.replies_mk] at hrq
            obtain ⟨r, hr, rfl⟩ := List.mem_map.mp hrq
            unfold UsePosts.likeMapReply
            by_cases hrr : (r.id == pid) = true
            · rw [if_pos hrr]
              obtain ⟨hl, hn⟩ := (hinv p hp).2 r hr
              refine ⟨?_, ?_⟩
              · simp [hl]
              · show (r.likedBy ++ [u]).Nodup
                exact nodup_append_singleton hn (hrep p hp r hr (beq_iff_eq.mp hrr))
            · rw [if_neg hrr]
              exact (hinv p hp).2 r hr
        · rw [if_neg hany]
          exact hinv p hp

theorem invLikes_del (pid : String) (c : List Post) (hinv : InvLikes c) :
    InvLikes (applyOp (StoreOp.del pid) c) := by
  show InvLikes ((WebStorage.deleteUpdatedPosts pid c).filter (fun post => !post.isDeleted))
  intro pq hpq
  have hpm := (List.mem_filter.mp hpq).1
  obtain ⟨p, hp, rfl⟩ := List.mem_map.mp hpm
  unfold WebStorage.deleteMarkPost
  by_cases hpp : (p.id == pid) = true
  · rw [if_pos hpp]
    refine ⟨?_, ?_⟩
    · have hok := (hinv p hp).1
      unfold likeOk at hok ⊢
      simpa using hok
    · intro r hr
      simp only [Post.replies_mk] at hr
      exact (hinv p hp).2 r hr
  · rw [if_neg hpp]
    by_cases hl : p.replies.length > 0
    · rw [if_pos hl]
      refine ⟨?_, ?_⟩
      · have hok := (hinv p hp).1
        unfold likeOk at hok ⊢
        simpa using hok
      · intro rq hrq
        simp only [Post.replies_mk] at hrq
        obtain ⟨r, hr, rfl⟩ := List.mem_map.mp hrq
        unfold WebStorage.deleteMarkReply
        by_cases hrr : (r.id == pid) = true
        · rw [if_pos hrr]
          have hok := (hinv p hp).2 r hr
          unfold likeOk at hok ⊢
          simpa using hok
        · rw [if_neg hrr]
          exact (hinv p hp).2 r hr
    · rw [if_neg hl]
      exact hinv p hp

theorem invLikes_update (pid text : String) (m : Option (List MediaFile))
    (ts : String) (c : List Post) (hu : UniqueIds c) (hinv : InvLikes c) :
    InvLikes (applyOp (StoreOp.update pid text m ts) c) := by
  simp only [applyOp]
  unfold UsePosts.updatePost
  by_cases hd : detectDangerousContent text = true
  · rw [if_pos hd]
    exact hinv
  · rw [if_neg hd]
    cases h : UsePosts.getPostById pid c with
    | none => exact hinv
    | some t0 =>
      obtain ⟨hok0, hrep0⟩ := update_target_ok pid c t0 hu h hinv
      intro pq hpq
      obtain ⟨p, hp, rfl⟩ := List.mem_map.mp hpq
      unfold UsePosts.updateMapPost
      by_cases hpp : (p.id == pid) = true
      · rw [if_pos hpp]
        refine ⟨?_, ?_⟩
        · unfold likeOk at hok0 ⊢
          simpa using hok0
        · intro r hr
          simp only [Post.replies_mk] at hr
          exact hrep0 p hp (beq_iff_eq.mp hpp) r hr
      · rw [if_neg hpp]
        by_cases hany : (p.replies.any (fun r => r.id == pid)) = true
        · rw [if_pos hany]
          refine ⟨?_, ?_⟩
          · have hok := (hinv p hp).1
            unfold likeOk at hok ⊢
            simpa using hok
          · intro rq hrq
            simp only [Post.replies_mk] at hrq
            obtain ⟨r, hr, rfl⟩ := List.mem_map.mp hrq
            unfold UsePosts.updateMapReply
            by_cases hrr : (r.id == pid) = true
            · rw [if_pos hrr]
              unfold likeOk at hok0 ⊢
              simpa using hok0
            · rw [if_neg hrr]
              exact (hinv p hp).2 r hr
        · rw [if_neg hany]
          exact hinv p hp

/-- C6: every mutating Post Store operation — create, reply, like, delete,
update — preserves the like-count invariant: starting from a collection with
unique ids whose every top-level post and direct reply satisfies
`likes = likedBy.length` with duplicate-free `likedBy`, the resulting
collection satisfies the same. -/
theorem likes_invariant_preserved (op : StoreOp) (c : List Post)
    (hu : UniqueIds c) (hinv : InvLikes c) : InvLikes (applyOp op c) := by
  cases op with
  | create text a m i ts => exact invLikes_create text a m i ts c hinv
  | reply pid text a m i ts => exact invLikes_reply pid text a m i ts c hinv
  | like pid u => exact invLikes_like pid u c hu hinv
  | del pid => exact invLikes_del pid c hinv
  | update pid text m ts => exact invLikes_update pid text m ts c hu hinv

/-- C6 (witness): the invariant after liking a post of a concrete
collection. -/
theorem likes_invariant_preserved_witness :
    InvLikes (applyOp (StoreOp.like "p1" "u1") [postAB]) :=
  likes_invariant_preserved (StoreOp.like "p1" "u1") [postAB]
    (by unfold UniqueIds; decide) (by unfold InvLikes likeOk; decide)
